import Mathlib

/-! Verification of the job-control and resource-governance layer of the
AppleMusicTG repository: shallow embeddings of `CacheManager`,
`RateLimiter`, `BandwidthTracker`, `NotificationManager`,
`ProgressTracker`, the retry logic of `DownloadManager` and
`DownloadService`, and the `DownloadQueue` scheduler loop, together with
theorems settling the specification's claims about them.

Time values (`time.time()` / `time.monotonic()` floats) are modelled as
rationals; Python ints as `Int` or `Nat`. -/

namespace AppleMusicTG

/-! ## CacheManager (src/utils/cache_manager.py)

The cache is a directory of files `<key>.json`.  We model the directory as
an association list from keys to the *parse result* of the stored text:
`none` models text on which `json.loads` raises `JSONDecodeError`, and
`some j` models text parsing to the JSON value `j`. -/

/-- JSON values, as produced by `json.loads`. -/
inductive Json where
  | null : Json
  | bool (b : Bool) : Json
  | num (q : ℚ) : Json
  | str (s : String) : Json
  | arr (xs : List Json) : Json
  | obj (fields : List (String × Json)) : Json
deriving Repr

/-- Python `data[k]` on a JSON object: first binding of the key. -/
def objLookup (fields : List (String × Json)) (k : String) : Option Json :=
  (fields.find? (fun p => p.1 == k)).map (fun p => p.2)

/-- Numeric coercion used by `time.time() - data["timestamp"]`: Python
subtraction succeeds on numbers and booleans and raises `TypeError`
otherwise. -/
def jsonAsNum : Json → Option ℚ
  | Json.num q => some q
  | Json.bool b => some (if b then 1 else 0)
  | _ => none

/-- The cache directory: key ↦ parse result of the stored file text.
A key absent from the list models a non-existent file. -/
def CacheDir : Type := List (String × Option Json)

/-- `cache_path.exists()` / reading the file for a key. -/
def cacheLookup (st : CacheDir) (key : String) : Option (Option Json) :=
  (st.find? (fun p => p.1 == key)).map (fun p => p.2)

/-- `cache_path.unlink()`. -/
def cacheErase (st : CacheDir) (key : String) : CacheDir :=
  st.filter (fun p => !(p.1 == key))

/-- `cache_path.write_text(...)`, overwriting any prior entry. -/
def cacheWrite (st : CacheDir) (key : String) (content : Option Json) : CacheDir :=
  (key, content) :: cacheErase st key

/-- Outcome of `CacheManager.get`. -/
inductive GetResult where
  | ok (v : Json) : GetResult       -- returned the cached value
  | miss : GetResult                -- returned `None`
  | typeError : GetResult           -- uncaught `TypeError` escaped to the caller
deriving Repr

/-- `CacheManager.get` (src/utils/cache_manager.py lines 16–30).
Returns the outcome together with the directory state afterwards.
Only `json.JSONDecodeError` and `KeyError` are caught by the source;
subscripting a non-dict or subtracting a non-number raises `TypeError`,
which is not caught and leaves the file in place. -/
def CacheManager.get (maxAge : ℚ) (now : ℚ) (st : CacheDir) (key : String) :
    GetResult × CacheDir :=
  match cacheLookup st key with
  | none => (GetResult.miss, st)
  | some none => (GetResult.miss, cacheErase st key)        -- JSONDecodeError, caught
  | some (some j) =>
    match j with
    | Json.obj fields =>
      match objLookup fields "timestamp" with
      | none => (GetResult.miss, cacheErase st key)          -- KeyError, caught
      | some tsj =>
        match jsonAsNum tsj with
        | none => (GetResult.typeError, st)                  -- TypeError, uncaught
        | some ts =>
          if maxAge < now - ts then (GetResult.miss, cacheErase st key)
          else
            match objLookup fields "value" with
            | none => (GetResult.miss, cacheErase st key)    -- KeyError, caught
            | some v => (GetResult.ok v, st)
    | _ => (GetResult.typeError, st)                         -- TypeError, uncaught

/-- `CacheManager.set` (src/utils/cache_manager.py lines 32–39): stores
`{"timestamp": now, "value": value}`. -/
def CacheManager.set (now : ℚ) (st : CacheDir) (key : String) (value : Json) :
    CacheDir :=
  cacheWrite st key (some (Json.obj [("timestamp", Json.num now), ("value", value)]))

/-! ## RateLimiter (src/utils/rate_limiter.py)

`wait` is sequential per key; we model one call on one key's window.  A
suspension is idealised: no time passes other than the sleep itself, so the
timestamp appended after sleeping is `now + sleep`. -/

/-- The pruning step `[t for t in self.calls[key] if now - t < self.time_frame]`. -/
def pruneWindow (timeFrame : ℚ) (now : ℚ) (w : List ℚ) : List ℚ :=
  w.filter (fun t => decide (now - t < timeFrame))

/-- The duration slept by `wait`: when the pruned window holds at least
`max_calls` entries, `sleep_time = time_frame - (now - window[0])`, slept
only if positive. -/
def waitSleep (maxCalls : ℕ) (timeFrame : ℚ) (w : List ℚ) (now : ℚ) : ℚ :=
  if maxCalls ≤ (pruneWindow timeFrame now w).length then
    if 0 < timeFrame - (now - (pruneWindow timeFrame now w).headI) then
      timeFrame - (now - (pruneWindow timeFrame now w).headI)
    else 0
  else 0

/-- `RateLimiter.wait` (src/utils/rate_limiter.py lines 11–24) on one key:
given the key's window and the current monotonic time, returns the slept
duration and the window after the call (the pruned window with the
post-sleep timestamp appended; a suspension is idealised so that the
timestamp recorded after sleeping is `now + sleep`). -/
def RateLimiter.wait (maxCalls : ℕ) (timeFrame : ℚ) (w : List ℚ) (now : ℚ) :
    ℚ × List ℚ :=
  (waitSleep maxCalls timeFrame w now,
   pruneWindow timeFrame now w ++ [now + waitSleep maxCalls timeFrame w now])

/-- `n` back-to-back calls to `wait` on one key starting from an empty
window at time 0: each call is issued the instant the previous one
returns, so time advances only by the sleeps.  Returns the time at which
the `n`-th call returns and the window afterwards. -/
def backToBackCalls (maxCalls : ℕ) (timeFrame : ℚ) : ℕ → ℚ × List ℚ
  | 0 => (0, [])
  | n + 1 =>
    let s := backToBackCalls maxCalls timeFrame n
    let r := RateLimiter.wait maxCalls timeFrame s.2 s.1
    (s.1 + r.1, r.2)

/-! ## BandwidthTracker (src/utils/bandwidth_tracker.py) -/

/-- `BandwidthRecord` (src/utils/bandwidth_tracker.py lines 10–14). -/
structure BandwidthRecord where
  timestamp : ℚ
  bytesTransferred : ℤ
  duration : ℚ
deriving Repr, DecidableEq

/-- `BandwidthTracker._prune_old_records` (lines 27–30): keep records with
`timestamp >= current_time - window_size`. -/
def pruneOldRecords (windowSize : ℚ) (currentTime : ℚ)
    (records : List BandwidthRecord) : List BandwidthRecord :=
  records.filter (fun r => decide (currentTime - windowSize ≤ r.timestamp))

/-- Python `x or 1` for a float `x`: `x` unless it equals `0.0`, else `1`. -/
def pyOrOne (x : ℚ) : ℚ := if x = 0 then 1 else x

/-- Result of `BandwidthTracker.calculate_bandwidth`. -/
structure BandwidthStats where
  totalBytes : ℤ
  transferRate : ℚ
  averageSpeed : ℚ
deriving Repr, DecidableEq

/-- `BandwidthTracker.calculate_bandwidth` (lines 74–117) on a chosen
record series: prunes, then computes
`transfer_rate = total_bytes / ((now - records[0].timestamp) or 1)` and
`average_speed = total_bytes / (sum(durations) or 1)`. -/
def calculateBandwidth (windowSize : ℚ) (now : ℚ)
    (series : List BandwidthRecord) : BandwidthStats :=
  match pruneOldRecords windowSize now series with
  | [] => ⟨0, 0, 0⟩
  | r0 :: rest =>
    let records := r0 :: rest
    let totalBytes : ℤ := (records.map (fun r => r.bytesTransferred)).sum
    let totalDuration := now - r0.timestamp
    ⟨totalBytes,
     (totalBytes : ℚ) / pyOrOne totalDuration,
     (totalBytes : ℚ) / pyOrOne ((records.map (fun r => r.duration)).sum)⟩

/-- The tracker's mutable state: per-user association list of record
series, plus the global series. -/
structure BandwidthState where
  users : List (ℤ × List BandwidthRecord)
  globalRecords : List BandwidthRecord
deriving Repr, DecidableEq

/-- `self.user_bandwidth_records.get(user_id, [])` for a user, with a
missing key reading as `[]` (the code inserts `[]` before appending). -/
def userRecords (st : BandwidthState) (uid : ℤ) : List BandwidthRecord :=
  match st.users.find? (fun p => p.1 == uid) with
  | some p => p.2
  | none => []

/-- `self.user_bandwidth_records[user_id] = l`: overwrite in place, or
insert for a new user. -/
def setUserRecords (st : BandwidthState) (uid : ℤ)
    (l : List BandwidthRecord) : List (ℤ × List BandwidthRecord) :=
  if st.users.any (fun p => p.1 == uid) then
    st.users.map (fun p => if p.1 == uid then (uid, l) else p)
  else
    st.users ++ [(uid, l)]

/-- Python `lst[-k:]`: the last `k` elements for `k ≥ 1`, but the whole
list for `k = 0` (since `lst[-0:] = lst[0:]`). -/
def takeLastPy (k : ℕ) (l : List BandwidthRecord) : List BandwidthRecord :=
  if k = 0 then l else l.drop (l.length - k)

/-- `BandwidthTracker.record_bandwidth` (lines 32–72): append the new
record to the global series and prune it; if a user id is given, append to
that user's series, prune it, and cap it at `max_records` entries by
keeping the slice `[-max_records:]`. -/
def recordBandwidth (windowSize : ℚ) (maxRecords : ℕ) (now : ℚ)
    (uid? : Option ℤ) (bytes : ℤ) (dur : ℚ) (st : BandwidthState) :
    BandwidthState :=
  let r : BandwidthRecord := ⟨now, bytes, dur⟩
  let g := pruneOldRecords windowSize now (st.globalRecords ++ [r])
  match uid? with
  | none => ⟨st.users, g⟩
  | some uid =>
    let l := pruneOldRecords windowSize now (userRecords st uid ++ [r])
    let l := if maxRecords < l.length then takeLastPy maxRecords l else l
    ⟨setUserRecords st uid l, g⟩

/-! ## NotificationManager (src/utils/notification_manager.py)

The dispatcher's control flow depends only on the fields below; recipient
and message only flow into the send attempt, which is modelled as an
oracle `send : Notification → Bool`.  The wall-clock time observed by the
expiry check is a fixed `now` for the whole processing loop. -/

/-- `Notification` (src/utils/notification_manager.py lines 13–22),
restricted to the fields the dispatcher loop reads. -/
structure Notification where
  nid : ℕ
  priority : ℤ
  createdAt : ℚ
  expiresAt : Option ℚ
  retryCount : ℕ
  maxRetries : ℕ
deriving Repr, DecidableEq

instance : Inhabited Notification := ⟨⟨0, 0, 0, none, 0, 0⟩⟩

/-- The order in which `notification_queue.sort(key=lambda x:
(x.priority, x.created_at), reverse=True)` arranges two notifications:
`a` comes no later than `b` iff the key pair of `a` is lexicographically
at least that of `b` (priority descending, then created_at descending). -/
def notifBefore (a b : Notification) : Prop :=
  b.priority < a.priority ∨ (a.priority = b.priority ∧ b.createdAt ≤ a.createdAt)

instance : DecidableRel notifBefore := fun a b => by
  unfold notifBefore; infer_instance

instance : IsTotal Notification notifBefore := by
  constructor
  intro a b
  rcases lt_trichotomy a.priority b.priority with h | h | h
  · exact Or.inr (Or.inl h)
  · rcases le_total a.createdAt b.createdAt with h' | h'
    · exact Or.inr (Or.inr ⟨h.symm, h'⟩)
    · exact Or.inl (Or.inr ⟨h, h'⟩)
  · exact Or.inl (Or.inl h)

instance : IsTrans Notification notifBefore := by
  constructor
  intro a b c hab hbc
  rcases hab with h1 | ⟨h1, h1'⟩ <;> rcases hbc with h2 | ⟨h2, h2'⟩
  · exact Or.inl (h2.trans h1)
  · exact Or.inl (h2 ▸ h1)
  · exact Or.inl (h1.symm ▸ h2)
  · exact Or.inr ⟨h1.trans h2, h2'.trans h1'⟩

/-- The in-loop sort: Python's `list.sort` is a stable sort, and with key
`(priority, created_at)` and `reverse=True` it orders notifications by
`notifBefore`; a stable sort by a total preorder is unique, so
`List.insertionSort` (which is stable) computes it. -/
def sortNotifications (q : List Notification) : List Notification :=
  q.insertionSort notifBefore

/-- The expiry test `notification.expires_at and datetime.now() >
notification.expires_at`. -/
def notifExpired (now : ℚ) (n : Notification) : Bool :=
  match n.expiresAt with
  | some e => decide (e < now)
  | none => false

/-- `notification.retry_count += 1` before the requeue. -/
def bumpRetry (n : Notification) : Notification :=
  { n with retryCount := n.retryCount + 1 }

/-- Observable outcome of `process_notification_queue`: the
`sent_notifications` and `failed_notifications` lists of the manager (in
append order), plus a ghost trace of the notifications dropped by the
expiry `continue` (the code only logs these; the trace exists to reason
about the drops). -/
structure DispatchResult where
  sentList : List Notification
  failedList : List Notification
  expiredDropped : List Notification
deriving Repr, DecidableEq

/-- Fuel bound for the dispatcher loop: a queue entry with `r` retries
left contributes `max_retries - retry_count + 1` iterations. -/
def notifMeasure (q : List Notification) : ℕ :=
  (q.map (fun n => n.maxRetries - n.retryCount + 1)).sum

/-- One `while self.notification_queue:` loop of
`process_notification_queue` (lines 120–147), with explicit fuel (the
fuel is only a termination device: `processQueue_fuel_irrelevant` shows
any fuel of at least `notifMeasure q` gives the same result).  Each
iteration sorts the queue, pops the head, drops it if expired, appends it
to `sent_notifications` on a successful send, re-appends it to the queue
with `retry_count + 1` on failure while `retry_count < max_retries`, and
otherwise appends it to `failed_notifications`. -/
def processAux (send : Notification → Bool) (now : ℚ) :
    ℕ → List Notification → DispatchResult
  | 0, _ => ⟨[], [], []⟩
  | fuel + 1, q =>
    match sortNotifications q with
    | [] => ⟨[], [], []⟩
    | n :: rest =>
      if notifExpired now n then
        let r := processAux send now fuel rest
        ⟨r.sentList, r.failedList, n :: r.expiredDropped⟩
      else if send n then
        let r := processAux send now fuel rest
        ⟨n :: r.sentList, r.failedList, r.expiredDropped⟩
      else if n.retryCount < n.maxRetries then
        processAux send now fuel (rest ++ [bumpRetry n])
      else
        let r := processAux send now fuel rest
        ⟨r.sentList, n :: r.failedList, r.expiredDropped⟩

/-- `NotificationManager.process_notification_queue` (lines 120–147). -/
def processNotificationQueue (send : Notification → Bool) (now : ℚ)
    (q : List Notification) : DispatchResult :=
  processAux send now (notifMeasure q) q

/-- A send oracle that always succeeds. -/
def sendAlwaysOk : Notification → Bool := fun _ => true

/-! ## ProgressTracker (src/utils/progress_tracker.py)

The tracker's mutable fields that the claims concern, plus a ghost list of
the events handed to the registered `update_callback` (one entry per
invocation of the callback). -/

/-- A progress event passed to the callback: the `(current, total, speed)`
data rendered into the progress text. -/
structure ProgressEvent where
  current : ℤ
  total : ℤ
  speed : ℚ
deriving Repr, DecidableEq

/-- `ProgressTracker` state (src/utils/progress_tracker.py lines 4–10). -/
structure TrackerState where
  lastUpdateTime : ℚ
  lastBytes : ℤ
  events : List ProgressEvent
deriving Repr, DecidableEq

/-- The tracker as constructed: `last_update_time = 0`, `last_bytes = 0`. -/
def initialTracker : TrackerState := ⟨0, 0, []⟩

/-- `ProgressTracker.calculate_speed` (lines 26–35): recomputes the speed
and resets the reference point only when at least 1 second has elapsed
since `last_update_time`; otherwise returns 0 and leaves the state
untouched. -/
def calculateSpeed (now : ℚ) (currentBytes : ℤ) (st : TrackerState) :
    ℚ × TrackerState :=
  let timeDiff := now - st.lastUpdateTime
  if 1 ≤ timeDiff then
    (((currentBytes - st.lastBytes : ℤ) : ℚ) / timeDiff,
     { st with lastBytes := currentBytes, lastUpdateTime := now })
  else
    (0, st)

/-- `ProgressTracker.update_progress` (lines 46–50): when a callback is
registered it renders the progress bar (which calls `calculate_speed`)
and invokes the callback — on every call, unconditionally. -/
def updateProgress (hasCallback : Bool) (now : ℚ) (current total : ℤ)
    (st : TrackerState) : TrackerState :=
  if hasCallback then
    let r := calculateSpeed now current st
    { r.2 with events := r.2.events ++ [⟨current, total, r.1⟩] }
  else st

/-! ## Retry logic: DownloadManager (src/utils/download_manager.py) and
DownloadService (src/services/download_service.py)

Both are modelled for a job whose execution closure fails on every
attempt, which is what claim C2 quantifies over. -/

/-- `DownloadItem` (src/utils/download_manager.py lines 7–17), restricted
to the fields the retry path touches. -/
structure DownloadItem where
  userId : ℤ
  status : String
  retries : ℕ
  errMsg : Option String
deriving Repr, DecidableEq

/-- A freshly queued item: `status = 'pending'`, `retries = 0`. -/
def freshItem (uid : ℤ) : DownloadItem := ⟨uid, "pending", 0, none⟩

/-- One run of `DownloadManager._process_download` (lines 54–78) whose
download body raises `err`: sets `status = 'downloading'`, then in the
`except` branch increments `retries`, records the error, and either
re-appends the item to the queue (result `true`) when
`retries <= max_retries`, or marks it `'failed'` and moves it to history
(result `false`). -/
def processDownloadFailing (maxRetries : ℕ) (err : String)
    (item : DownloadItem) : DownloadItem × Bool :=
  let it : DownloadItem :=
    { item with status := "downloading", retries := item.retries + 1,
                errMsg := some err }
  if it.retries ≤ maxRetries then (it, true)
  else ({ it with status := "failed" }, false)

/-- The scheduler repeatedly re-runs an always-failing item for as long as
`_process_download` re-appends it to `download_queue` (the loop in
`start_download_queue`, lines 46–52, keeps draining a non-empty queue).
Returns the item's final state and the number of executions; the fuel is
a termination device only. -/
def runFailingItem (maxRetries : ℕ) (err : String) :
    ℕ → DownloadItem → DownloadItem × ℕ
  | 0, item => (item, 0)
  | fuel + 1, item =>
    let r := processDownloadFailing maxRetries err item
    if r.2 then
      let rec' := runFailingItem maxRetries err fuel r.1
      (rec'.1, rec'.2 + 1)
    else (r.1, 1)

/-- `DownloadProgress` fields touched by `_download_with_retry`
(src/services/download_service.py lines 10–18). -/
structure ServiceProgress where
  attempts : ℕ
  status : String
  errMsg : Option String
deriving Repr, DecidableEq

/-- A fresh `DownloadProgress`: `attempts = 0`, `status = 'pending'`. -/
def freshProgress : ServiceProgress := ⟨0, "pending", none⟩

/-- The loop body of `DownloadService._download_with_retry` (lines 69–94)
with an always-failing `_download_file`: `for attempt in range(1,
max_retries + 1)` sets `attempts = attempt`, fails, records the error and
`status = 'failed'`, and sleeps between attempts; the loop then falls
through and the function raises `Exception("Max retries exceeded")`.
`remaining` counts the loop iterations still to run and `attempt` is the
next value of the loop variable. -/
def serviceRetryLoopFailing (err : String) :
    ℕ → ℕ → ServiceProgress → ServiceProgress
  | 0, _, p => p
  | remaining + 1, attempt, _ =>
    serviceRetryLoopFailing err remaining (attempt + 1)
      ⟨attempt, "failed", some err⟩

/-- `DownloadService._download_with_retry` on an always-failing download:
the state of the `DownloadProgress` at the moment the final
`Exception("Max retries exceeded")` is raised. -/
def downloadWithRetryFailing (maxRetries : ℕ) (err : String)
    (p : ServiceProgress) : ServiceProgress :=
  serviceRetryLoopFailing err maxRetries 1 p

/-! ## DownloadQueue scheduler (src/utils/queue_manager.py)

The scheduler loop and the spawned `process_download` tasks interleave
cooperatively.  Atomic blocks between `await` suspension points are the
transitions: one loop iteration checks `len(current_downloads) <
max_concurrent`, takes the queue head (no suspension occurs on a
non-empty `asyncio.Queue`) and calls `asyncio.create_task`, which only
schedules the task; a created task, once the event loop first runs it,
enters `current_downloads` and then awaits; a finishing task deletes its
entry.  `DownloadManager.start_download_queue`
(src/utils/download_manager.py lines 46–52) has the same loop shape with
a guard on `active_downloads`, a dict no code path of the queue ever
writes. -/

/-- A configuration of `DownloadQueue`: the pending queue, the tasks
created but not yet first scheduled, and the keys of
`current_downloads`. -/
structure QueueState where
  pending : List ℤ
  spawned : List ℤ
  current : List ℤ
deriving Repr, DecidableEq

/-- Interleaved execution steps of `DownloadQueue.start_processing`
(lines 24–35) and `DownloadQueue.process_download` (lines 37–47). -/
inductive QueueStep (maxConcurrent : ℕ) : QueueState → QueueState → Prop
  | dequeue (u : ℤ) (rest spawned current : List ℤ)
      (hguard : current.length < maxConcurrent) :
      QueueStep maxConcurrent ⟨u :: rest, spawned, current⟩
        ⟨rest, spawned ++ [u], current⟩
  | taskStart (u : ℤ) (pending s1 s2 current : List ℤ) :
      QueueStep maxConcurrent ⟨pending, s1 ++ u :: s2, current⟩
        ⟨pending, s1 ++ s2, current ++ [u]⟩
  | taskFinish (u : ℤ) (pending spawned c1 c2 : List ℤ) :
      QueueStep maxConcurrent ⟨pending, spawned, c1 ++ u :: c2⟩
        ⟨pending, spawned, c1 ++ c2⟩

/-- Reachability of queue configurations from an initial one. -/
def QueueReachable (maxConcurrent : ℕ) (s0 s : QueueState) : Prop :=
  Relation.ReflTransGen (QueueStep maxConcurrent) s0 s

/-! ## Helper lemmas -/

theorem cacheLookup_cacheWrite (st : CacheDir) (k : String) (c : Option Json) :
    cacheLookup (cacheWrite st k c) k = some c := by
  simp [cacheWrite, cacheLookup]

theorem cacheLookup_cacheErase (st : CacheDir) (k : String) :
    cacheLookup (cacheErase st k) k = none := by
  unfold cacheLookup cacheErase
  rw [List.find?_eq_none.mpr]
  · rfl
  · intro p hp
    have h := (List.mem_filter.mp hp).2
    simpa using h

/-! ## Claims -/

/-- C1: the claim asserts that in every reachable configuration at most
`maxConcurrent` downloads are running because the scheduler loop dequeues
only when fewer than `maxConcurrent` are current.  The code violates
this: the guard `len(self.current_downloads) < self.max_concurrent` is
evaluated before `asyncio.create_task`, but a created task only enters
`current_downloads` when the event loop first runs it, so with
`max_concurrent = 1` and two queued requests the loop dequeues both
before either task starts, and a configuration with two concurrent
downloads is reachable. -/
theorem queue_concurrency_bound_violated :
    ∃ s : QueueState, QueueReachable 1 ⟨[1, 2], [], []⟩ s ∧
      1 < s.current.length := by
  refine ⟨⟨[], [], [1, 2]⟩, ?_, by decide⟩
  have h1 : QueueStep 1 ⟨[1, 2], [], []⟩ ⟨[2], [1], []⟩ :=
    QueueStep.dequeue 1 [2] [] [] (by decide)
  have h2 : QueueStep 1 ⟨[2], [1], []⟩ ⟨[], [1, 2], []⟩ :=
    QueueStep.dequeue 2 [] [1] [] (by decide)
  have h3 : QueueStep 1 ⟨[], [1, 2], []⟩ ⟨[], [2], [1]⟩ :=
    QueueStep.taskStart 1 [] [] [2] []
  have h4 : QueueStep 1 ⟨[], [2], [1]⟩ ⟨[], [], [1, 2]⟩ :=
    QueueStep.taskStart 2 [] [] [] [1]
  exact Relation.ReflTransGen.head h1 (Relation.ReflTransGen.head h2
    (Relation.ReflTransGen.head h3 (Relation.ReflTransGen.single h4)))

/-- C5: `set(k, v)` then `get(k)` within `ttl` returns `v`; a `get` more
than `ttl` after the `set` returns a miss (and evicts), and a further
`get` on the resulting state still returns a miss. -/
theorem cache_ttl_roundtrip (ttl t0 t1 t2 t3 : ℚ) (st : CacheDir)
    (k : String) (v : Json) (h1 : t1 - t0 ≤ ttl) (h2 : ttl < t2 - t0) :
    (CacheManager.get ttl t1 (CacheManager.set t0 st k v) k).1
        = GetResult.ok v ∧
    (CacheManager.get ttl t2 (CacheManager.set t0 st k v) k).1
        = GetResult.miss ∧
    (CacheManager.get ttl t3
        (CacheManager.get ttl t2 (CacheManager.set t0 st k v) k).2 k).1
        = GetResult.miss := by
  have hset := cacheLookup_cacheWrite st k
    (some (Json.obj [("timestamp", Json.num t0), ("value", v)]))
  refine ⟨?_, ?_, ?_⟩
  · unfold CacheManager.get CacheManager.set
    rw [hset]
    simp [objLookup, jsonAsNum, not_lt.mpr h1]
  · unfold CacheManager.get CacheManager.set
    rw [hset]
    simp [objLookup, jsonAsNum, h2]
  · have hmiss : (CacheManager.get ttl t2 (CacheManager.set t0 st k v) k).2
        = cacheErase (CacheManager.set t0 st k v) k := by
      unfold CacheManager.get CacheManager.set
      rw [hset]
      simp [objLookup, jsonAsNum, h2]
    rw [hmiss]
    unfold CacheManager.get
    rw [cacheLookup_cacheErase]

/-- Witness for `cache_ttl_roundtrip` at ttl 3600, set at 0, reads at
10, 3601 and 4000. -/
theorem cache_ttl_roundtrip_witness :
    (CacheManager.get 3600 10 (CacheManager.set 0 [] "k" (Json.num 7)) "k").1
        = GetResult.ok (Json.num 7) ∧
    (CacheManager.get 3600 3601 (CacheManager.set 0 [] "k" (Json.num 7)) "k").1
        = GetResult.miss ∧
    (CacheManager.get 3600 4000
        (CacheManager.get 3600 3601
          (CacheManager.set 0 [] "k" (Json.num 7)) "k").2 "k").1
        = GetResult.miss :=
  cache_ttl_roundtrip 3600 0 10 3601 4000 [] "k" (Json.num 7)
    (by norm_num) (by norm_num)

/-- C6 counterexample: the claim says *every* malformed stored entry is
treated as a miss, evicted, and never surfaces an error; but a stored
file whose text parses to the JSON array `[]` (well-formed JSON that is
not an entry object) makes `data["timestamp"]` raise an uncaught
`TypeError`, and the file is not evicted. -/
theorem cache_corrupt_not_healed_cex :
    (CacheManager.get 3600 100 [("k", some (Json.arr []))] "k").1
        = GetResult.typeError ∧
    (CacheManager.get 3600 100 [("k", some (Json.arr []))] "k").2
        = [("k", some (Json.arr []))] :=
  ⟨rfl, rfl⟩

/-- C6 amended: stored text that fails to parse as JSON, or parses to an
object lacking the `"timestamp"` key, or to an unexpired object lacking
the `"value"` key, is treated as a miss and the entry is evicted, with no
error surfaced (the source catches `JSONDecodeError` and `KeyError`); but
stored text parsing to a non-object JSON value, or to an object whose
`"timestamp"` is not numeric, raises an uncaught `TypeError` and the
entry is not evicted. -/
theorem cache_corrupt_amended (maxAge now : ℚ) (st : CacheDir) (k : String)
    (c : Option Json) (hc : cacheLookup st k = some c) :
    (c = none →
      CacheManager.get maxAge now st k = (GetResult.miss, cacheErase st k)) ∧
    (∀ fields, c = some (Json.obj fields) →
      objLookup fields "timestamp" = none →
      CacheManager.get maxAge now st k = (GetResult.miss, cacheErase st k)) ∧
    (∀ fields ts, c = some (Json.obj fields) →
      objLookup fields "timestamp" = some (Json.num ts) →
      ¬ maxAge < now - ts → objLookup fields "value" = none →
      CacheManager.get maxAge now st k = (GetResult.miss, cacheErase st k)) ∧
    (∀ j, c = some j → (∀ fields, j ≠ Json.obj fields) →
      CacheManager.get maxAge now st k = (GetResult.typeError, st)) ∧
    (∀ fields tsj, c = some (Json.obj fields) →
      objLookup fields "timestamp" = some tsj → jsonAsNum tsj = none →
      CacheManager.get maxAge now st k = (GetResult.typeError, st)) := by
  refine ⟨?_, ?_, ?_, ?_, ?_⟩
  · rintro rfl
    unfold CacheManager.get
    rw [hc]
  · rintro fields rfl hts
    unfold CacheManager.get
    rw [hc]
    simp [hts]
  · rintro fields ts rfl hts hlt hval
    unfold CacheManager.get
    rw [hc]
    simp [hts, jsonAsNum, if_neg hlt, hval]
  · rintro j rfl hnot
    unfold CacheManager.get
    rw [hc]
    cases j
    case obj fields => exact absurd rfl (hnot fields)
    all_goals rfl
  · rintro fields tsj rfl hts hnum
    unfold CacheManager.get
    rw [hc]
    simp [hts, hnum]

/-- Witness for `cache_corrupt_amended`: a stored file with unparsable
text is a miss and is evicted. -/
theorem cache_corrupt_amended_witness :
    CacheManager.get 3600 100 [("k", (none : Option Json))] "k"
      = (GetResult.miss, cacheErase [("k", (none : Option Json))] "k") :=
  (cache_corrupt_amended 3600 100 [("k", none)] "k" none rfl).1 rfl

/-- C7: under sequential use of one key, `wait` prunes the window to the
trailing `time_frame`, suspends exactly when the pruned window has at
least `max_calls` entries, for `time_frame - (now - oldest)` where the
oldest entry is the head of the (chronologically ordered) pruned window,
and records the call's timestamp at the tail before returning; and with
`max_calls = 5`, `time_frame = 1`, the 6th of 6 back-to-back calls
returns at time 1, exactly `time_frame` after the 1st call (issued at
time 0), the first five returning immediately. -/
theorem rate_limiter_wait_spec (maxCalls : ℕ) (timeFrame now : ℚ)
    (w : List ℚ) (hmc : 1 ≤ maxCalls) (hsorted : List.Pairwise (· ≤ ·) w) :
    (0 < (RateLimiter.wait maxCalls timeFrame w now).1 ↔
      maxCalls ≤ (pruneWindow timeFrame now w).length) ∧
    (maxCalls ≤ (pruneWindow timeFrame now w).length →
      (RateLimiter.wait maxCalls timeFrame w now).1
        = timeFrame - (now - (pruneWindow timeFrame now w).headI)) ∧
    (∀ t ∈ pruneWindow timeFrame now w,
      (pruneWindow timeFrame now w).headI ≤ t) ∧
    (RateLimiter.wait maxCalls timeFrame w now).2
      = pruneWindow timeFrame now w
          ++ [now + (RateLimiter.wait maxCalls timeFrame w now).1] ∧
    (backToBackCalls 5 1 6).1 = 1 ∧ (backToBackCalls 5 1 5).1 = 0 := by
  have hhead : ∀ (a : ℚ) (t : List ℚ),
      pruneWindow timeFrame now w = a :: t → now - a < timeFrame := by
    intro a t h
    have ha : a ∈ pruneWindow timeFrame now w := h ▸ List.mem_cons_self a t
    simp only [pruneWindow, List.mem_filter] at ha
    exact of_decide_eq_true ha.2
  have hmain : maxCalls ≤ (pruneWindow timeFrame now w).length →
      (RateLimiter.wait maxCalls timeFrame w now).1
        = timeFrame - (now - (pruneWindow timeFrame now w).headI) ∧
      0 < (RateLimiter.wait maxCalls timeFrame w now).1 := by
    intro hlen
    obtain ⟨a, t, hw⟩ : ∃ a t, pruneWindow timeFrame now w = a :: t := by
      cases hw : pruneWindow timeFrame now w with
      | nil => rw [hw] at hlen; simp at hlen; omega
      | cons a t => exact ⟨a, t, rfl⟩
    have hpos : 0 < timeFrame - (now - a) := by
      have := hhead a t hw
      linarith
    have : (RateLimiter.wait maxCalls timeFrame w now).1
        = timeFrame - (now - a) := by
      show waitSleep maxCalls timeFrame w now = _
      rw [hw] at hlen
      unfold waitSleep
      rw [hw]
      simp only [List.headI_cons, if_pos hlen, if_pos hpos]
    rw [this, hw]
    exact ⟨by simp, hpos⟩
  have h5 : backToBackCalls 5 1 5 = (0, [0, 0, 0, 0, 0]) := by
    norm_num [backToBackCalls, RateLimiter.wait, waitSleep, pruneWindow]
  have h6 : (backToBackCalls 5 1 6).1 = 1 := by
    rw [show (6 : ℕ) = 5 + 1 from rfl, backToBackCalls, h5]
    norm_num [RateLimiter.wait, waitSleep, pruneWindow]
  refine ⟨?_, fun h => (hmain h).1, ?_, rfl, h6, by rw [h5]⟩
  · constructor
    · intro hpos
      by_contra hlen
      have : (RateLimiter.wait maxCalls timeFrame w now).1 = 0 := by
        show waitSleep maxCalls timeFrame w now = 0
        unfold waitSleep
        rw [if_neg hlen]
      rw [this] at hpos
      exact lt_irrefl 0 hpos
    · exact fun h => (hmain h).2
  · have hs : List.Pairwise (· ≤ ·) (pruneWindow timeFrame now w) :=
      List.Pairwise.filter _ hsorted
    cases hw : pruneWindow timeFrame now w with
    | nil => intro t ht; exact absurd ht (List.not_mem_nil t)
    | cons a t =>
      rw [hw] at hs
      intro x hx
      rcases List.mem_cons.mp hx with rfl | hx
      · exact le_refl x
      · exact (List.pairwise_cons.mp hs).1 x hx

/-- Witness for `rate_limiter_wait_spec` at `max_calls = 5`,
`time_frame = 1`, a full window of five calls at time 0, and a 6th call
at time 0. -/
theorem rate_limiter_wait_spec_witness :
    (0 < (RateLimiter.wait 5 1 [0, 0, 0, 0, 0] 0).1 ↔
      5 ≤ (pruneWindow 1 0 [0, 0, 0, 0, 0]).length) ∧
    (5 ≤ (pruneWindow 1 0 [0, 0, 0, 0, 0]).length →
      (RateLimiter.wait 5 1 [0, 0, 0, 0, 0] 0).1
        = 1 - (0 - (pruneWindow 1 0 [0, 0, 0, 0, 0]).headI)) ∧
    (∀ t ∈ pruneWindow 1 0 [0, 0, 0, 0, 0],
      (pruneWindow 1 0 [0, 0, 0, 0, 0]).headI ≤ t) ∧
    (RateLimiter.wait 5 1 [0, 0, 0, 0, 0] 0).2
      = pruneWindow 1 0 [0, 0, 0, 0, 0]
          ++ [0 + (RateLimiter.wait 5 1 [0, 0, 0, 0, 0] 0).1] ∧
    (backToBackCalls 5 1 6).1 = 1 ∧ (backToBackCalls 5 1 5).1 = 0 :=
  rate_limiter_wait_spec 5 1 0 [0, 0, 0, 0, 0] (by decide) (by norm_num)

/-- C8 counterexample: the claim says `transfer_rate = total_bytes /
max(now - oldest_record_ts, 1)` and `average_speed = total_bytes /
max(Σ durations, 1)`, but the code divides by `x or 1`, which equals `x`
(not 1) for any non-zero `x < 1`: with one record half a second old of 4
bytes and duration one half, the code returns rate 8 and speed 8 while
the claim's formulas give 4. -/
theorem bandwidth_formula_cex :
    (calculateBandwidth 60 100 [⟨199/2, 4, 1/2⟩]).transferRate = 8 ∧
    (calculateBandwidth 60 100 [⟨199/2, 4, 1/2⟩]).averageSpeed = 8 ∧
    ((4 : ℚ) / max (100 - 199/2 : ℚ) 1 = 4) ∧
    ((4 : ℚ) / max (1/2 : ℚ) 1 = 4) ∧ (8 : ℚ) ≠ 4 := by
  have hp : pruneOldRecords 60 100 [⟨199/2, 4, 1/2⟩]
      = [⟨199/2, 4, 1/2⟩] := by
    norm_num [pruneOldRecords]
  have hc : calculateBandwidth 60 100 [⟨199/2, 4, 1/2⟩] = ⟨4, 8, 8⟩ := by
    unfold calculateBandwidth
    rw [hp]
    norm_num [pyOrOne]
  rw [hc]
  norm_num

/-- C8 amended: on a series whose pruned part is non-empty,
`calculate_bandwidth` computes `total_bytes` as the sum over the pruned
records only, `transfer_rate = total_bytes / d` with `d = now -
records[0].timestamp` unless `d = 0` in which case the divisor is 1
(Python `d or 1`, not `max(d, 1)`), and `average_speed = total_bytes / s`
with `s = Σ durations` unless `s = 0` in which case the divisor is 1;
for a chronologically ordered series, `records[0]` is the oldest pruned
record, and every pruned record lies within the trailing window. -/
theorem bandwidth_calculate_amended (ws now : ℚ)
    (series : List BandwidthRecord) (r0 : BandwidthRecord)
    (rest : List BandwidthRecord)
    (hp : pruneOldRecords ws now series = r0 :: rest)
    (hsorted : List.Pairwise (fun a b => a.timestamp ≤ b.timestamp) series) :
    calculateBandwidth ws now series
      = ⟨((r0 :: rest).map (fun r => r.bytesTransferred)).sum,
         (((((r0 :: rest).map (fun r => r.bytesTransferred)).sum : ℤ)) : ℚ) /
           (if now - r0.timestamp = 0 then 1 else now - r0.timestamp),
         (((((r0 :: rest).map (fun r => r.bytesTransferred)).sum : ℤ)) : ℚ) /
           (if ((r0 :: rest).map (fun r => r.duration)).sum = 0 then 1
            else ((r0 :: rest).map (fun r => r.duration)).sum)⟩ ∧
    (∀ r ∈ pruneOldRecords ws now series, r0.timestamp ≤ r.timestamp) ∧
    (∀ r ∈ pruneOldRecords ws now series, now - ws ≤ r.timestamp) := by
  refine ⟨?_, ?_, ?_⟩
  · unfold calculateBandwidth
    rw [hp]
    rfl
  · have hs : List.Pairwise (fun a b => a.timestamp ≤ b.timestamp)
        (pruneOldRecords ws now series) := List.Pairwise.filter _ hsorted
    rw [hp] at hs ⊢
    intro r hr
    rcases List.mem_cons.mp hr with rfl | hr
    · exact le_refl _
    · exact (List.pairwise_cons.mp hs).1 r hr
  · intro r hr
    simp only [pruneOldRecords, List.mem_filter] at hr
    exact of_decide_eq_true hr.2

/-- Witness for `bandwidth_calculate_amended`: one 4-byte record of
duration 2, one second old, in a 60-second window. -/
theorem bandwidth_calculate_amended_witness :
    calculateBandwidth 60 100 [⟨99, 4, 2⟩] = ⟨4, 4, 2⟩ := by
  have h := (bandwidth_calculate_amended 60 100 [⟨99, 4, 2⟩] ⟨99, 4, 2⟩ []
    (by norm_num [pruneOldRecords]) (by simp)).1
  rw [h]
  norm_num

/-! ## Dispatcher lemmas -/

theorem sortNotifications_perm (q : List Notification) : List.Perm (sortNotifications q) q :=
  List.perm_insertionSort _ _

theorem notifMeasure_congr {q q' : List Notification} (h : List.Perm q q') :
    notifMeasure q = notifMeasure q' :=
  (h.map _).sum_eq

theorem notifMeasure_cons (n : Notification) (q : List Notification) :
    notifMeasure (n :: q) = n.maxRetries - n.retryCount + 1 + notifMeasure q := by
  simp [notifMeasure]

theorem notifMeasure_append (q1 q2 : List Notification) :
    notifMeasure (q1 ++ q2) = notifMeasure q1 + notifMeasure q2 := by
  simp [notifMeasure]

theorem notifMeasure_nil : notifMeasure [] = 0 := rfl

theorem notifMeasure_eq_zero {q : List Notification} (h : notifMeasure q = 0) :
    q = [] := by
  cases q with
  | nil => rfl
  | cons n t => rw [notifMeasure_cons] at h; omega

theorem processAux_spec (send : Notification → Bool) (now : ℚ) :
    ∀ fuel q, notifMeasure q ≤ fuel →
      (List.Perm ((processAux send now fuel q).sentList.map (fun n => n.nid)
        ++ (processAux send now fuel q).failedList.map (fun n => n.nid)
        ++ (processAux send now fuel q).expiredDropped.map (fun n => n.nid))
        (q.map (fun n => n.nid))) ∧
      (∀ n ∈ (processAux send now fuel q).failedList,
        n.maxRetries ≤ n.retryCount ∧ notifExpired now n = false ∧ send n = false) ∧
      (∀ n ∈ (processAux send now fuel q).expiredDropped,
        notifExpired now n = true) ∧
      (∀ n ∈ (processAux send now fuel q).sentList,
        notifExpired now n = false ∧ send n = true) := by
  intro fuel
  induction fuel with
  | zero =>
    intro q hq
    have hq0 : q = [] := notifMeasure_eq_zero (Nat.le_zero.mp hq)
    subst hq0
    simp [processAux]
  | succ fuel ih =>
    intro q hq
    cases hs : sortNotifications q with
    | nil =>
      have hq0 : q = [] := by
        have h := sortNotifications_perm q
        rw [hs] at h
        exact h.symm.eq_nil
      subst hq0
      simp [processAux, sortNotifications, List.insertionSort]
    | cons n rest =>
      have hperm : List.Perm (n :: rest) q := by
        have h := sortNotifications_perm q; rw [hs] at h; exact h
      have hmq : notifMeasure q
          = n.maxRetries - n.retryCount + 1 + notifMeasure rest := by
        rw [← notifMeasure_congr hperm, notifMeasure_cons]
      have hrest : notifMeasure rest ≤ fuel := by omega
      have hids : List.Perm (n.nid :: rest.map (fun n => n.nid)) (q.map (fun n => n.nid)) := by
        simpa using hperm.map (fun n => n.nid)
      have hstep : processAux send now (fuel + 1) q
          = if notifExpired now n then
              let r := processAux send now fuel rest
              ⟨r.sentList, r.failedList, n :: r.expiredDropped⟩
            else if send n then
              let r := processAux send now fuel rest
              ⟨n :: r.sentList, r.failedList, r.expiredDropped⟩
            else if n.retryCount < n.maxRetries then
              processAux send now fuel (rest ++ [bumpRetry n])
            else
              let r := processAux send now fuel rest
              ⟨r.sentList, n :: r.failedList, r.expiredDropped⟩ := by
        show (match sortNotifications q with
          | [] => (⟨[], [], []⟩ : DispatchResult)
          | n :: rest =>
            if notifExpired now n then
              let r := processAux send now fuel rest
              ⟨r.sentList, r.failedList, n :: r.expiredDropped⟩
            else if send n then
              let r := processAux send now fuel rest
              ⟨n :: r.sentList, r.failedList, r.expiredDropped⟩
            else if n.retryCount < n.maxRetries then
              processAux send now fuel (rest ++ [bumpRetry n])
            else
              let r := processAux send now fuel rest
              ⟨r.sentList, n :: r.failedList, r.expiredDropped⟩) = _
        rw [hs]
      obtain ⟨ihp, ihf, ihe, ihsent⟩ := ih rest hrest
      cases hexp : notifExpired now n with
      | true =>
        rw [hstep, if_pos (by rw [hexp])]
        refine ⟨?_, ihf, ?_, ihsent⟩
        · dsimp only
          rw [List.map_cons]
          exact List.perm_middle.trans ((ihp.cons n.nid).trans hids)
        · dsimp only
          intro m hm
          rcases List.mem_cons.mp hm with rfl | hm
          · exact hexp
          · exact ihe m hm
      | false =>
        cases hsend : send n with
        | true =>
          rw [hstep, if_neg (by rw [hexp]; simp), if_pos (by rw [hsend])]
          refine ⟨?_, ihf, ihe, ?_⟩
          · dsimp only
            rw [List.map_cons]
            exact (ihp.cons n.nid).trans hids
          · dsimp only
            intro m hm
            rcases List.mem_cons.mp hm with rfl | hm
            · exact ⟨hexp, hsend⟩
            · exact ihsent m hm
        | false =>
          cases hrc : decide (n.retryCount < n.maxRetries) with
          | true =>
            have hlt : n.retryCount < n.maxRetries := of_decide_eq_true hrc
            have hm2 : notifMeasure (rest ++ [bumpRetry n]) ≤ fuel := by
              rw [notifMeasure_append, notifMeasure_cons, notifMeasure_nil]
              simp only [bumpRetry]
              omega
            obtain ⟨ihp2, ihf2, ihe2, ihsent2⟩ := ih (rest ++ [bumpRetry n]) hm2
            rw [hstep, if_neg (by rw [hexp]; simp), if_neg (by rw [hsend]; simp),
              if_pos hlt]
            refine ⟨?_, ihf2, ihe2, ihsent2⟩
            refine List.Perm.trans ihp2 ?_
            refine List.Perm.trans ?_ hids
            have : (rest ++ [bumpRetry n]).map (fun n => n.nid)
                = rest.map (fun n => n.nid) ++ [n.nid] := by
              simp [bumpRetry]
            rw [this]
            exact List.perm_append_singleton n.nid (rest.map (fun n => n.nid))
          | false =>
            have hge : ¬ n.retryCount < n.maxRetries := of_decide_eq_false hrc
            rw [hstep, if_neg (by rw [hexp]; simp), if_neg (by rw [hsend]; simp),
              if_neg hge]
            refine ⟨?_, ?_, ihe, ihsent⟩
            · dsimp only
              rw [List.map_cons]
              exact (List.perm_middle.append_right _).trans
                ((ihp.cons n.nid).trans hids)
            · dsimp only
              intro m hm
              rcases List.mem_cons.mp hm with rfl | hm
              · exact ⟨Nat.le_of_not_lt hge, hexp, hsend⟩
              · exact ihf m hm

theorem processAux_succ (send : Notification → Bool) (now : ℚ) (fuel : ℕ)
    (q : List Notification) :
    processAux send now (fuel + 1) q
      = match sortNotifications q with
        | [] => ⟨[], [], []⟩
        | n :: rest =>
          if notifExpired now n then
            let r := processAux send now fuel rest
            ⟨r.sentList, r.failedList, n :: r.expiredDropped⟩
          else if send n then
            let r := processAux send now fuel rest
            ⟨n :: r.sentList, r.failedList, r.expiredDropped⟩
          else if n.retryCount < n.maxRetries then
            processAux send now fuel (rest ++ [bumpRetry n])
          else
            let r := processAux send now fuel rest
            ⟨r.sentList, n :: r.failedList, r.expiredDropped⟩ := rfl

theorem processAux_fuel_eq (send : Notification → Bool) (now : ℚ) :
    ∀ f1 f2 q, notifMeasure q ≤ f1 → notifMeasure q ≤ f2 →
      processAux send now f1 q = processAux send now f2 q := by
  intro f1
  induction f1 with
  | zero =>
    intro f2 q h1 h2
    have hq0 : q = [] := notifMeasure_eq_zero (Nat.le_zero.mp h1)
    subst hq0
    cases f2 with
    | zero => rfl
    | succ f2 => simp [processAux, sortNotifications, List.insertionSort]
  | succ f1 ih =>
    intro f2 q h1 h2
    cases f2 with
    | zero =>
      have hq0 : q = [] := notifMeasure_eq_zero (Nat.le_zero.mp h2)
      subst hq0
      simp [processAux, sortNotifications, List.insertionSort]
    | succ f2 =>
      cases hs : sortNotifications q with
      | nil => rw [processAux_succ send now f1, processAux_succ send now f2, hs]
      | cons n rest =>
        have hperm : List.Perm (n :: rest) q := by
          have h := sortNotifications_perm q; rw [hs] at h; exact h
        have hmq : notifMeasure q
            = n.maxRetries - n.retryCount + 1 + notifMeasure rest := by
          rw [← notifMeasure_congr hperm, notifMeasure_cons]
        have hr1 : notifMeasure rest ≤ f1 := by omega
        have hr2 : notifMeasure rest ≤ f2 := by omega
        rw [processAux_succ send now f1, processAux_succ send now f2, hs]
        dsimp only
        cases hexp : notifExpired now n with
        | true => simp [ih f2 rest hr1 hr2]
        | false =>
          cases hsend : send n with
          | true => simp [ih f2 rest hr1 hr2]
          | false =>
            by_cases hlt : n.retryCount < n.maxRetries
            · have hb1 : notifMeasure (rest ++ [bumpRetry n]) ≤ f1 := by
                rw [notifMeasure_append, notifMeasure_cons, notifMeasure_nil]
                simp only [bumpRetry]
                omega
              have hb2 : notifMeasure (rest ++ [bumpRetry n]) ≤ f2 := by
                rw [notifMeasure_append, notifMeasure_cons, notifMeasure_nil]
                simp only [bumpRetry]
                omega
              simp [if_pos hlt, ih f2 (rest ++ [bumpRetry n]) hb1 hb2]
            · simp [if_neg hlt, ih f2 rest hr1 hr2]

/-- C3 counterexample: two queued notifications with equal priority and
different creation times — the claim says the earlier-created one is
delivered first, but `sort(key=(priority, created_at), reverse=True)`
reverses the `created_at` component too, so the later-created
notification (nid 2, created at 1) is delivered before the earlier one
(nid 1, created at 0). -/
theorem notification_order_cex :
    (processNotificationQueue sendAlwaysOk 0
      [⟨1, 1, 0, none, 0, 3⟩, ⟨2, 1, 1, none, 0, 3⟩]).sentList.map
        (fun n => n.nid) = [2, 1] ∧
    (⟨1, 1, 0, none, 0, 3⟩ : Notification).priority
      = (⟨2, 1, 1, none, 0, 3⟩ : Notification).priority ∧
    (⟨1, 1, 0, none, 0, 3⟩ : Notification).createdAt
      < (⟨2, 1, 1, none, 0, 3⟩ : Notification).createdAt ∧
    ([2, 1] : List ℕ) ≠ [1, 2] := by
  refine ⟨?_, rfl, by norm_num, by decide⟩
  norm_num [processNotificationQueue, processAux, notifMeasure,
    sortNotifications, List.insertionSort, List.orderedInsert, notifExpired,
    sendAlwaysOk, notifBefore]

/-- C3 amended: the dispatcher pops in the order priority descending,
`created_at` *descending* (most recently created first among equal
priorities): the head of the sorted queue is `notifBefore`-maximal among
all queued notifications; in particular a HIGH-priority (3) notification
enqueued after a LOW-priority (1) one is still delivered first. -/
theorem notification_order_amended (q : List Notification)
    (m : Notification) (hm : m ∈ q) :
    notifBefore (sortNotifications q).headI m ∧
    (processNotificationQueue sendAlwaysOk 0
      [⟨1, 1, 0, none, 0, 3⟩, ⟨2, 3, 1, none, 0, 3⟩]).sentList.map
        (fun n => n.nid) = [2, 1] := by
  constructor
  · have hsorted : List.Sorted notifBefore (sortNotifications q) :=
      List.sorted_insertionSort notifBefore q
    have hmem : m ∈ sortNotifications q :=
      ((sortNotifications_perm q).mem_iff).mpr hm
    cases hq : sortNotifications q with
    | nil => rw [hq] at hmem; exact absurd hmem (List.not_mem_nil m)
    | cons a t =>
      rw [hq] at hmem hsorted
      rw [List.headI_cons]
      rcases List.mem_cons.mp hmem with rfl | hmt
      · rcases IsTotal.total (r := notifBefore) m m with h | h <;> exact h
      · exact (List.sorted_cons.mp hsorted).1 m hmt
  · norm_num [processNotificationQueue, processAux, notifMeasure,
      sortNotifications, List.insertionSort, List.orderedInsert, notifExpired,
      sendAlwaysOk, notifBefore]

/-- Witness for `notification_order_amended` on a one-element queue. -/
theorem notification_order_amended_witness :
    notifBefore (sortNotifications [⟨1, 1, 0, none, 0, 3⟩]).headI
      ⟨1, 1, 0, none, 0, 3⟩ ∧
    (processNotificationQueue sendAlwaysOk 0
      [⟨1, 1, 0, none, 0, 3⟩, ⟨2, 3, 1, none, 0, 3⟩]).sentList.map
        (fun n => n.nid) = [2, 1] :=
  notification_order_amended [⟨1, 1, 0, none, 0, 3⟩] ⟨1, 1, 0, none, 0, 3⟩
    (List.mem_cons_self _ _)

/-- C4 counterexample: the claim says every notification removed from the
active queue with a terminal classification is retained in an audit list;
but an expired notification (expires at 5, processed at 10) is popped by
the `continue` branch and retained in neither `sent_notifications` nor
`failed_notifications` — it is only logged and dropped. -/
theorem notification_expired_dropped_cex :
    (processNotificationQueue sendAlwaysOk 10
      [⟨1, 2, 0, some 5, 0, 3⟩]).sentList = [] ∧
    (processNotificationQueue sendAlwaysOk 10
      [⟨1, 2, 0, some 5, 0, 3⟩]).failedList = [] ∧
    (processNotificationQueue sendAlwaysOk 10
      [⟨1, 2, 0, some 5, 0, 3⟩]).expiredDropped
      = [⟨1, 2, 0, some 5, 0, 3⟩] := by
  norm_num [processNotificationQueue, processAux, notifMeasure,
    sortNotifications, List.insertionSort, List.orderedInsert, notifExpired,
    sendAlwaysOk]

/-- C4 amended: the dispatcher classifies every queued notification into
exactly one of Sent, Expired or Failed (the ids of the three outcome
lists are a permutation of the queued ids); Sent and Failed
notifications are retained in the `sent_notifications` /
`failed_notifications` audit lists, with Failed ones having exhausted
`max_retries` and Expired ones genuinely expired — but Expired
notifications are dropped without retention (`expiredDropped` is a ghost
trace; the code only logs them); and the loop terminates on any finite
queue: any fuel beyond `notifMeasure q` computes the same result. -/
theorem notification_process_amended (send : Notification → Bool) (now : ℚ)
    (q : List Notification) :
    (List.Perm
      ((processNotificationQueue send now q).sentList.map (fun n => n.nid)
        ++ (processNotificationQueue send now q).failedList.map (fun n => n.nid)
        ++ (processNotificationQueue send now q).expiredDropped.map
            (fun n => n.nid))
      (q.map (fun n => n.nid))) ∧
    (∀ n ∈ (processNotificationQueue send now q).failedList,
      n.maxRetries ≤ n.retryCount ∧ notifExpired now n = false ∧
        send n = false) ∧
    (∀ n ∈ (processNotificationQueue send now q).expiredDropped,
      notifExpired now n = true) ∧
    (∀ n ∈ (processNotificationQueue send now q).sentList,
      notifExpired now n = false ∧ send n = true) ∧
    (∀ extra, processAux send now (notifMeasure q + extra) q
      = processNotificationQueue send now q) := by
  obtain ⟨h1, h2, h3, h4⟩ :=
    processAux_spec send now (notifMeasure q) q (le_refl _)
  exact ⟨h1, h2, h3, h4, fun extra =>
    processAux_fuel_eq send now (notifMeasure q + extra) (notifMeasure q) q
      (Nat.le_add_right _ _) (le_refl _)⟩

/-! ## Retry lemmas -/

theorem serviceRetryLoop_spec (err : String) :
    ∀ remaining attempt (p : ServiceProgress), 1 ≤ remaining →
      serviceRetryLoopFailing err remaining attempt p
        = ⟨attempt + remaining - 1, "failed", some err⟩ := by
  intro remaining
  induction remaining with
  | zero => intro _ _ h; exact absurd h (by omega)
  | succ r ih =>
    intro attempt p _
    rw [serviceRetryLoopFailing]
    rcases Nat.eq_zero_or_pos r with rfl | hr
    · rw [serviceRetryLoopFailing]
      simp
    · rw [ih (attempt + 1) _ hr]
      congr 1
      omega

theorem runFailingItem_spec (mr : ℕ) (err : String) :
    ∀ k extra (item : DownloadItem), item.retries + k = mr + 1 → 1 ≤ k →
      runFailingItem mr err (k + extra) item
        = ({ userId := item.userId, status := "failed", retries := mr + 1,
             errMsg := some err }, k) := by
  intro k
  induction k with
  | zero => intro extra item _ h; exact absurd h (by omega)
  | succ k ih =>
    intro extra item hr _
    have hfuel : k + 1 + extra = (k + extra) + 1 := by omega
    rw [hfuel, runFailingItem]
    by_cases hreq : item.retries + 1 ≤ mr
    · have hk : 1 ≤ k := by omega
      have hstep : processDownloadFailing mr err item
          = (⟨item.userId, "downloading", item.retries + 1, some err⟩, true) := by
        unfold processDownloadFailing
        simp [hreq]
      have hrec := ih extra ⟨item.userId, "downloading", item.retries + 1, some err⟩
        (by show item.retries + 1 + k = mr + 1; omega) hk
      simp [hstep, hrec]
    · have hk : k = 0 := by omega
      subst hk
      have hr1 : item.retries + 1 = mr + 1 := by omega
      have hstep : processDownloadFailing mr err item
          = (⟨item.userId, "failed", item.retries + 1, some err⟩, false) := by
        unfold processDownloadFailing
        simp [hreq]
      simp [hstep, hr1]

/-- C2 counterexample: the claim says every always-failing job ends with
attempt_count equal to maxRetries + 1; but `DownloadService.
_download_with_retry` runs `for attempt in range(1, max_retries + 1)`,
so with `max_retries = 3` an always-failing download makes exactly 3
attempts (final `attempts = 3`, not 4) and then raises. -/
theorem retry_attempts_cex :
    (downloadWithRetryFailing 3 "err" freshProgress).attempts = 3 ∧
    (downloadWithRetryFailing 3 "err" freshProgress).status = "failed" ∧
    (3 : ℕ) ≠ 3 + 1 :=
  ⟨rfl, rfl, by decide⟩

/-- C2 amended: in `DownloadManager`, an always-failing item is executed
exactly `maxRetries + 1` times (the first attempt plus `maxRetries`
retries), ends in status 'failed' with `retries = maxRetries + 1`, and
is never re-appended or executed again (any extra scheduler fuel yields
the same terminal result and execution count); in
`DownloadService._download_with_retry`, an always-failing download makes
exactly `maxRetries` attempts (final `attempts = maxRetries`) before
raising. -/
theorem retry_exhaustion_amended (mr : ℕ) (err : String) (uid : ℤ) :
    (∀ extra, runFailingItem mr err (mr + 1 + extra) (freshItem uid)
      = ({ userId := uid, status := "failed", retries := mr + 1,
           errMsg := some err }, mr + 1)) ∧
    (downloadWithRetryFailing mr err freshProgress).attempts = mr := by
  constructor
  · intro extra
    exact runFailingItem_spec mr err (mr + 1) extra (freshItem uid)
      (by simp [freshItem]) (by omega)
  · rcases Nat.eq_zero_or_pos mr with rfl | hmr
    · rfl
    · unfold downloadWithRetryFailing
      rw [serviceRetryLoop_spec err mr 1 freshProgress hmr]
      show 1 + mr - 1 = mr
      omega

/-- C9 counterexample: the claim says `update` emits at most one progress
event per 1-second interval and updates within the interval of the
previous emission produce no event; but `update_progress` invokes the
callback on every call — two updates half a second apart both emit, so
two events are emitted within one interval. -/
theorem progress_throttle_cex :
    ((updateProgress true (201/2) 20 100
        (updateProgress true 100 10 100 initialTracker)).events.length = 2) ∧
    ((201/2 : ℚ) - 100 < 1) := by
  constructor
  · norm_num [updateProgress, calculateSpeed, initialTracker]
  · norm_num

/-- C9 amended: `update_progress` emits exactly one event to the
registered callback on every call (no emission throttling; with no
callback registered nothing happens); only the *speed computation* is
throttled: `calculate_speed` returns 0 and leaves its reference point
unchanged when less than 1 second has elapsed since `last_update_time`,
and recomputes `speed = Δbytes/Δt` and resets the reference to `now`
when at least 1 second has elapsed — so the reference point advances at
most once per second. -/
theorem progress_update_amended (now : ℚ) (cur tot : ℤ) (st : TrackerState) :
    ((updateProgress true now cur tot st).events.length
      = st.events.length + 1) ∧
    (updateProgress false now cur tot st = st) ∧
    (now - st.lastUpdateTime < 1 → calculateSpeed now cur st = (0, st)) ∧
    (1 ≤ now - st.lastUpdateTime →
      (calculateSpeed now cur st).2.lastUpdateTime = now ∧
      (calculateSpeed now cur st).2.lastBytes = cur ∧
      (calculateSpeed now cur st).1
        = ((cur - st.lastBytes : ℤ) : ℚ) / (now - st.lastUpdateTime)) := by
  refine ⟨?_, rfl, ?_, ?_⟩
  · unfold updateProgress calculateSpeed
    by_cases h : 1 ≤ now - st.lastUpdateTime <;> simp [h]
  · intro h
    unfold calculateSpeed
    rw [if_neg (not_le.mpr h)]
  · intro h
    unfold calculateSpeed
    rw [if_pos h]
    exact ⟨rfl, rfl, rfl⟩

/-- Witness for `progress_update_amended`: an update at time 100 on a
fresh tracker emits one event; at time 1/2 the speed path is throttled;
at time 100 the reference point is reset. -/
theorem progress_update_amended_witness :
    ((updateProgress true 100 10 100 initialTracker).events.length
      = initialTracker.events.length + 1) ∧
    calculateSpeed (1/2) 10 initialTracker = (0, initialTracker) ∧
    (calculateSpeed 100 10 initialTracker).2.lastUpdateTime = 100 :=
  ⟨(progress_update_amended 100 10 100 initialTracker).1,
   (progress_update_amended (1/2) 10 0 initialTracker).2.2.1 (by norm_num [initialTracker]),
   ((progress_update_amended 100 10 0 initialTracker).2.2.2
     (by norm_num [initialTracker])).1⟩

/-! ## Bandwidth cap lemmas -/

theorem takeLastPy_suffix (k : ℕ) (l : List BandwidthRecord) :
    List.IsSuffix (takeLastPy k l) l := by
  unfold takeLastPy
  split
  · exact List.suffix_refl l
  · exact List.drop_suffix _ _

theorem takeLastPy_length (k : ℕ) (l : List BandwidthRecord) (hk : 1 ≤ k)
    (hlt : k < l.length) : (takeLastPy k l).length = k := by
  unfold takeLastPy
  rw [if_neg (by omega), List.length_drop]
  omega

theorem mem_setUserRecords {st : BandwidthState} {uid : ℤ}
    {l : List BandwidthRecord} {p : ℤ × List BandwidthRecord}
    (hp : p ∈ setUserRecords st uid l) : p ∈ st.users ∨ p.2 = l := by
  unfold setUserRecords at hp
  by_cases h : st.users.any (fun q => q.1 == uid)
  · rw [if_pos h] at hp
    obtain ⟨q, hq, hqe⟩ := List.mem_map.mp hp
    cases h2 : q.1 == uid with
    | true => right; rw [← hqe]; simp [h2]
    | false => left; rw [← hqe]; simp only [h2]; simpa using hq
  · rw [if_neg h] at hp
    rcases List.mem_append.mp hp with h2 | h2
    · left; exact h2
    · right
      have hpl : p = (uid, l) := by simpa using h2
      rw [hpl]

theorem find?_setUserRecords (uid : ℤ) (l : List BandwidthRecord) :
    ∀ us : List (ℤ × List BandwidthRecord),
      ((if us.any (fun q => q.1 == uid) then
          us.map (fun q => if q.1 == uid then (uid, l) else q)
        else us ++ [(uid, l)]).find? (fun q => q.1 == uid)) = some (uid, l) := by
  intro us
  induction us with
  | nil => simp
  | cons q us ih =>
    cases hq : q.1 == uid with
    | true =>
      have hany : (q :: us).any (fun r => r.1 == uid) = true := by
        simp [hq]
      rw [if_pos hany, List.map_cons]
      simp [hq]
    | false =>
      cases hany : us.any (fun r => r.1 == uid) with
      | true =>
        rw [if_pos hany] at ih
        have hany2 : (q :: us).any (fun r => r.1 == uid) = true := by
          simp [hany]
        rw [if_pos hany2, List.map_cons]
        rw [List.find?_cons_of_neg _ (by simp [hq])]
        exact ih
      | false =>
        rw [if_neg (by rw [hany]; exact Bool.false_ne_true)] at ih
        have hany2 : (q :: us).any (fun r => r.1 == uid) = false := by
          simp [hq, hany]
        rw [if_neg (by rw [hany2]; exact Bool.false_ne_true), List.cons_append]
        rw [List.find?_cons_of_neg _ (by simp [hq])]
        exact ih

theorem userRecords_setUserRecords (st : BandwidthState)
    (g : List BandwidthRecord) (uid : ℤ) (l : List BandwidthRecord) :
    userRecords ⟨setUserRecords st uid l, g⟩ uid = l := by
  show (match (setUserRecords st uid l).find? (fun p => p.1 == uid) with
    | some p => p.2
    | none => []) = l
  unfold setUserRecords
  rw [find?_setUserRecords uid l st.users]

/-- C10: after a `record_bandwidth` call with a user id, every per-user
record list has at most `max_records` entries (given the cap held before
and `max_records ≥ 1`, as in the only configuration used, the default
100); the recorded user's list is a suffix of the pruned appended list,
so the cap discards the *oldest* records even when they are within the
window; and the global list receives no cap — it is exactly the
window-pruned append, and with `max_records = 1` a record call can leave
3 in-window global records. -/
theorem bandwidth_record_caps (ws : ℚ) (mr : ℕ) (now : ℚ) (uid : ℤ)
    (b : ℤ) (d : ℚ) (st : BandwidthState)
    (hmr : 1 ≤ mr) (hinv : ∀ p ∈ st.users, p.2.length ≤ mr) :
    (∀ p ∈ (recordBandwidth ws mr now (some uid) b d st).users,
      p.2.length ≤ mr) ∧
    List.IsSuffix
      (userRecords (recordBandwidth ws mr now (some uid) b d st) uid)
      (pruneOldRecords ws now (userRecords st uid ++ [⟨now, b, d⟩])) ∧
    (recordBandwidth ws mr now (some uid) b d st).globalRecords
      = pruneOldRecords ws now (st.globalRecords ++ [⟨now, b, d⟩]) ∧
    (recordBandwidth 60 1 0 none 0 0
      ⟨[], [⟨0, 0, 0⟩, ⟨0, 0, 0⟩]⟩).globalRecords.length = 3 := by
  have hlen : (if mr < (pruneOldRecords ws now
        (userRecords st uid ++ [⟨now, b, d⟩])).length then
      takeLastPy mr (pruneOldRecords ws now
        (userRecords st uid ++ [⟨now, b, d⟩]))
    else pruneOldRecords ws now
        (userRecords st uid ++ [⟨now, b, d⟩])).length ≤ mr := by
    split
    case isTrue h => rw [takeLastPy_length mr _ hmr h]
    case isFalse h => omega
  refine ⟨?_, ?_, rfl, ?_⟩
  · intro p hp
    have hm : p ∈ setUserRecords st uid _ := hp
    rcases mem_setUserRecords hm with h | h
    · exact hinv p h
    · rw [h]
      exact hlen
  · show List.IsSuffix (userRecords ⟨setUserRecords st uid _, _⟩ uid) _
    rw [userRecords_setUserRecords]
    split
    case isTrue h => exact takeLastPy_suffix _ _
    case isFalse h => exact List.suffix_refl _
  · norm_num [recordBandwidth, pruneOldRecords]

/-- Witness for `bandwidth_record_caps`: a record for user 1 on an empty
tracker with the default cap of 100. -/
theorem bandwidth_record_caps_witness :
    (recordBandwidth 60 100 0 (some 1) 5 1 ⟨[], []⟩).globalRecords
      = pruneOldRecords 60 0 ([] ++ [⟨0, 5, 1⟩]) ∧
    (recordBandwidth 60 1 0 none 0 0
      ⟨[], [⟨0, 0, 0⟩, ⟨0, 0, 0⟩]⟩).globalRecords.length = 3 := by
  have h := bandwidth_record_caps 60 100 0 1 5 1 ⟨[], []⟩ (by decide)
    (by intro p hp; exact absurd hp (List.not_mem_nil p))
  exact ⟨h.2.2.1, h.2.2.2⟩

end AppleMusicTG
